import Mathlib

/-!
Verification development for the QDirStat directory-tree core
(src/src/DirTree.h and its specification).

The only source file of the repository is the header DirTree.h: it carries
the class declarations, the signal documentation and a few inline method
bodies (DirTree::locate, DirTree::isBusy, the flag accessors).  Everything
else (DirInfo, the read jobs, the cache reader/writer) is declared but not
present, so those parts are modelled from the specification, as marked in
the doc comments below.
-/

set_option maxHeartbeats 1000000

/-- Node kinds of the file tree: plain file, directory, pseudo root,
aggregate ("dot entry"), excluded (cross-filesystem mount point) and
error marker. -/
inductive FKind where
  | plainFile
  | directory
  | pseudoRoot
  | aggregate
  | excluded
  | errorMarker
deriving DecidableEq

/-- Per-node attributes of a FileInfo: name, size in bytes, last-modified
time, device id, link count and node kind. -/
structure Attrs where
  name : String
  size : Nat
  mtime : Nat
  dev : Nat
  links : Nat
  kind : FKind
deriving DecidableEq

/-- Aggregate totals of a DirInfo: total size, total item count, total
subdirectory count. -/
structure Totals where
  size : Nat
  items : Nat
  subdirs : Nat
deriving DecidableEq

/-- Componentwise sum of totals. -/
def Totals.add (x y : Totals) : Totals :=
  ⟨x.size + y.size, x.items + y.items, x.subdirs + y.subdirs⟩

/-- The neutral totals. -/
def Totals.zero : Totals := ⟨0, 0, 0⟩

mutual
/-- Modelled from the spec: DirInfo.h is not under src/.  A node of the
node model: a leaf, or a directory node owning an ordered child collection
and cached aggregate totals, where `none` means the cache was invalidated
(dirty) and `some t` means the cache holds `t`. -/
inductive DirNode where
  | file (a : Attrs)
  | dir (a : Attrs) (cache : Option Totals) (children : DirForest)
/-- An ordered collection of child nodes (insertion order = discovery order). -/
inductive DirForest where
  | nil
  | cons (hd : DirNode) (tl : DirForest)
end

/-- Contribution of a leaf to its parent's totals: only plain files carry
size and item count. -/
def leafTotals (a : Attrs) : Totals :=
  if a.kind = FKind.plainFile then ⟨a.size, 1, 0⟩ else Totals.zero

/-- Contribution of a directory node itself: one subdirectory. -/
def dirSelf (a : Attrs) : Totals :=
  if a.kind = FKind.directory then ⟨0, 0, 1⟩ else Totals.zero

mutual
/-- Eager reference totals of a node, its whole subtree included:
the sum over all descendant plain-file nodes plus the subdirectory count. -/
def trueN : DirNode → Totals
  | .file a => leafTotals a
  | .dir a _ cs => Totals.add (dirSelf a) (trueF cs)
/-- Eager reference totals of a forest. -/
def trueF : DirForest → Totals
  | .nil => Totals.zero
  | .cons x xs => Totals.add (trueN x) (trueF xs)
end

mutual
/-- Modelled from the spec: lazy totals of a node.  A directory whose cache
is valid is not descended into; recomputation relies on the already-valid
cached totals of children that are not themselves dirty. -/
def lazyN : DirNode → Totals
  | .file a => leafTotals a
  | .dir a c cs =>
      Totals.add (dirSelf a)
        (match c with
         | some t => t
         | none => lazyF cs)
/-- Lazy totals of a forest. -/
def lazyF : DirForest → Totals
  | .nil => Totals.zero
  | .cons x xs => Totals.add (lazyN x) (lazyF xs)
end

/-- Modelled from the spec: aggregateTotals(dir) returns the cached totals,
recomputing lazily first if the dirty flag is set (cache = none). -/
def aggregateTotals : DirNode → Totals
  | .file _ => Totals.zero
  | .dir _ c cs =>
      match c with
      | some t => t
      | none => lazyF cs

/-- The child collection of a node (empty for a leaf). -/
def childrenOf : DirNode → DirForest
  | .file _ => .nil
  | .dir _ _ cs => cs

mutual
/-- Cache consistency: every valid (non-dirty) cache in the subtree equals
the eager totals of the children it summarizes. -/
def cacheOK : DirNode → Bool
  | .file _ => true
  | .dir _ c cs =>
      (match c with
       | none => true
       | some t => decide (t = trueF cs)) && cacheOKF cs
/-- Cache consistency of a forest. -/
def cacheOKF : DirForest → Bool
  | .nil => true
  | .cons x xs => cacheOK x && cacheOKF xs
end

mutual
/-- Sum of the sizes of all plain-file nodes of a subtree: the reference
value the specification states for aggregate totals. -/
def plainSizeN : DirNode → Nat
  | .file a => if a.kind = FKind.plainFile then a.size else 0
  | .dir _ _ cs => plainSizeF cs
/-- Sum of the sizes of all plain-file nodes of a forest. -/
def plainSizeF : DirForest → Nat
  | .nil => 0
  | .cons x xs => plainSizeN x + plainSizeF xs
end

/-- Append a node at the end of a child collection (attachChild appends:
insertion order is discovery order). -/
def appendF : DirForest → DirNode → DirForest
  | .nil, c => .cons c .nil
  | .cons x xs, c => .cons x (appendF xs c)

mutual
/-- Modelled from the spec: attachChild.  Appends the child to the
collection of the directory addressed by the index path and invalidates the
cached totals of that directory and of every ancestor along the path.
Returns none when the path does not address a directory. -/
def attachGo : DirNode → List Nat → DirNode → Option DirNode
  | .file _, _, _ => none
  | .dir a _ cs, [], child => some (.dir a none (appendF cs child))
  | .dir a _ cs, i :: p, child =>
      match attachGoF cs i p child with
      | some cs₂ => some (.dir a none cs₂)
      | none => none
/-- attachChild navigation through a forest. -/
def attachGoF : DirForest → Nat → List Nat → DirNode → Option DirForest
  | .nil, _, _, _ => none
  | .cons x xs, 0, p, child =>
      match attachGo x p child with
      | some x₂ => some (.cons x₂ xs)
      | none => none
  | .cons x xs, Nat.succ i, p, child =>
      match attachGoF xs i p child with
      | some xs₂ => some (.cons x xs₂)
      | none => none
end

/-- Remove the i-th element of a forest; none when out of range. -/
def removeIdx : DirForest → Nat → Option DirForest
  | .nil, _ => none
  | .cons _ xs, 0 => some xs
  | .cons x xs, Nat.succ i =>
      match removeIdx xs i with
      | some xs₂ => some (.cons x xs₂)
      | none => none

mutual
/-- Modelled from the spec: detachChild.  Removes the i-th child of the
directory addressed by the index path, invalidating the cached totals along
the path; none when the child is not found. -/
def detachGo : DirNode → List Nat → Nat → Option DirNode
  | .file _, _, _ => none
  | .dir a _ cs, [], i =>
      match removeIdx cs i with
      | some cs₂ => some (.dir a none cs₂)
      | none => none
  | .dir a _ cs, j :: p, i =>
      match detachGoF cs j p i with
      | some cs₂ => some (.dir a none cs₂)
      | none => none
/-- detachChild navigation through a forest. -/
def detachGoF : DirForest → Nat → List Nat → Nat → Option DirForest
  | .nil, _, _, _ => none
  | .cons x xs, 0, p, i =>
      match detachGo x p i with
      | some x₂ => some (.cons x₂ xs)
      | none => none
  | .cons x xs, Nat.succ j, p, i =>
      match detachGoF xs j p i with
      | some xs₂ => some (.cons x xs₂)
      | none => none
end

/-- A mutation of the node model: attach a child at a path, or detach the
i-th child of the node at a path. -/
inductive MOp where
  | attach (path : List Nat) (child : DirNode)
  | detach (path : List Nat) (idx : Nat)

/-- Apply one mutation; an operation addressing a nonexistent position is a
no-op (detachChild reports not-found and does nothing). -/
def applyOp (t : DirNode) : MOp → DirNode
  | .attach p c => (attachGo t p c).getD t
  | .detach p i => (detachGo t p i).getD t

/-- Apply a finite sequence of mutations in order. -/
def applyOps (t : DirNode) : List MOp → DirNode
  | [] => t
  | o :: os => applyOps (applyOp t o) os

/-- Every child attached by the operation sequence has consistent caches
itself (freshly created scan nodes do). -/
def opsOK : List MOp → Bool
  | [] => true
  | MOp.attach _ c :: os => cacheOK c && opsOK os
  | MOp.detach _ _ :: os => opsOK os

mutual
/-- A node of the attribute tree used by the locate and cache models: its
attributes and its ordered child collection. -/
inductive FileInfo where
  | mk (a : Attrs) (children : FileForest)
/-- An ordered collection of FileInfo children. -/
inductive FileForest where
  | nil
  | cons (hd : FileInfo) (tl : FileForest)
end

/-- The attributes of a node. -/
def FileInfo.attrs : FileInfo → Attrs
  | .mk a _ => a

/-- The child collection of a node. -/
def FileInfo.children : FileInfo → FileForest
  | .mk _ cs => cs

/-- The kind of a node. -/
def FileInfo.kind (t : FileInfo) : FKind := t.attrs.kind

/-- The name of a node. -/
def FileInfo.fname (t : FileInfo) : String := t.attrs.name

/-- The conventional name of the aggregate pseudo-entry ("dot entry"),
DirTree.h line 145: dot entries are ".../<Files>". -/
def dotEntryName : String := "<Files>"

/-- Whether a path segment matches a child: an aggregate pseudo-child
matches by the conventional dot-entry name and only when findDotEntries is
set; any other child matches by its name. -/
def segMatches (findDotEntries : Bool) (seg : String) (c : FileInfo) : Bool :=
  if c.kind = FKind.aggregate then findDotEntries && decide (seg = dotEntryName)
  else decide (c.fname = seg)

mutual
/-- Modelled from the spec: FileInfo::locate is not under src/.  Resolves a
segment list by walking child-by-child name match; returns none as soon as
a segment matches no child. -/
def locateSegs : FileInfo → List String → Bool → Option FileInfo
  | t, [], _ => some t
  | .mk _ cs, s :: ss, f => locateFirst cs s ss f
/-- Find the first child matching the segment and continue the walk there. -/
def locateFirst : FileForest → String → List String → Bool → Option FileInfo
  | .nil, _, _, _ => none
  | .cons c ct, s, ss, f =>
      if segMatches f s c then locateSegs c ss f else locateFirst ct s ss f
end

/-- Modelled from the spec: FileInfo::locate resolves a `/`-separated path
string by walking child-by-child. -/
def FileInfo.locate (t : FileInfo) (url : String) (findDotEntries : Bool) : Option FileInfo :=
  locateSegs t (url.splitOn "/") findDotEntries

/-- States of the job queue: idle, busy, or aborting. -/
inductive QState where
  | idle
  | busy
  | aborting
deriving DecidableEq

/-- A directory read job: the id of the directory it reads and the entries
of its current directory listing not yet reported. -/
structure ReadJob where
  dir : Nat
  remaining : List Nat
deriving DecidableEq

/-- The job queue: the ordered pending sequence, the currently executing
job (or none), and the queue state. -/
structure JobQueue where
  pending : List ReadJob
  current : Option ReadJob
  state : QState
deriving DecidableEq

/-- Externally observable events (the signals of DirTree.h). -/
inductive Event where
  | childAdded (id : Nat)
  | deletingChild (id : Nat)
  | childDeleted
  | startingReading
  | finished
  | aborted
  | finalizeLocal (dir : Option Nat)
  | selectionChanged (sel : Option Nat)
deriving DecidableEq

/-- The events produced by finishing one job: one childAdded per listed
entry, then the per-directory finalize notice. -/
def runJob (j : ReadJob) : List Event :=
  j.remaining.map Event.childAdded ++ [Event.finalizeLocal (some j.dir)]

/-- Modelled from the spec: DirReadJobQueue is not under src/.  One
scheduling step: an idle queue does nothing; a busy queue finishes the
executing job, or starts the next pending job, and when the pending
sequence is empty with no job executing it becomes idle and reports
completion. -/
def queueStep : JobQueue → JobQueue × List Event
  | ⟨ps, some j, QState.busy⟩ => (⟨ps, none, QState.busy⟩, runJob j)
  | ⟨p :: ps, none, QState.busy⟩ => (⟨ps, some p, QState.busy⟩, [])
  | ⟨[], none, QState.busy⟩ => (⟨[], none, QState.idle⟩, [Event.finished])
  | q => (q, [])

/-- Modelled from the spec: Job Queue abort.  Pending jobs are discarded
without execution; the currently executing job finishes its current
directory listing (its remaining entries are still reported) but produces
no further sub-jobs; the queue transitions to idle and reports an aborted
outcome rather than a finished one. -/
def queueAbort (q : JobQueue) : JobQueue × List Event :=
  (⟨[], none, QState.idle⟩,
   (match q.current with
    | some j => j.remaining.map Event.childAdded
    | none => []) ++ [Event.aborted])

/-- The state of a DirTree: pseudo root (none before the first scan),
current selection, job queue, cross-filesystem policy and busy flag
(the protected members of DirTree.h lines 372-379). -/
structure DirTreeSt where
  root : Option FileInfo
  selection : Option Nat
  jobQueue : JobQueue
  crossFileSystems : Bool
  isBusy : Bool

/-- From the source (DirTree.h lines 151-152): locate returns
root->locate(url, findDotEntries) when the root is set and 0 otherwise. -/
def DirTree.locate (s : DirTreeSt) (url : String) (findDotEntries : Bool) : Option FileInfo :=
  match s.root with
  | some r => FileInfo.locate r url findDotEntries
  | none => none

/-- The error taxonomy of the coordinator. -/
inductive DirTreeError where
  | alreadyBusy
  | cacheFormat
deriving DecidableEq

/-- Append a node at the end of a FileForest. -/
def appendFF : FileForest → FileInfo → FileForest
  | .nil, c => .cons c .nil
  | .cons x xs, c => .cons x (appendFF xs c)

/-- Modelled from the spec: DirTree::startReading is not under src/.  Fails
with AlreadyBusyError if a scan is already in progress, leaving everything
untouched; otherwise creates or reuses the pseudo root, creates the
toplevel node for the path, pushes its initial scan job, marks the tree
busy and returns immediately. -/
def startReading (s : DirTreeSt) (path : String) :
    Option DirTreeError × DirTreeSt × List Event :=
  if s.isBusy then (some DirTreeError.alreadyBusy, s, [])
  else
    let pr := match s.root with
      | some r => r
      | none => FileInfo.mk ⟨"", 0, 0, 0, 0, FKind.pseudoRoot⟩ FileForest.nil
    let top := FileInfo.mk ⟨path, 0, 0, 0, 0, FKind.directory⟩ FileForest.nil
    (none,
     { s with
         root := some (FileInfo.mk pr.attrs (appendFF pr.children top)),
         jobQueue := ⟨[], some ⟨0, []⟩, QState.busy⟩,
         isBusy := true },
     [Event.startingReading])

/-- Modelled from the spec: DirTree::abortReading is not under src/.
Delegates to the Job Queue's abort and clears the busy flag, guaranteeing a
terminal idle state. -/
def abortReading (s : DirTreeSt) : DirTreeSt × List Event :=
  let r := queueAbort s.jobQueue
  ({ s with jobQueue := r.1, isBusy := false }, r.2)

/-- Modelled from the spec: DirTree::selectItem is not under src/.  Sets
the current selection to the node (or none) and always emits
selectionChanged, even when the new selection equals the previous one (no
deduplication). -/
def selectItem (s : DirTreeSt) (n : Option Nat) : DirTreeSt × List Event :=
  ({ s with selection := n }, [Event.selectionChanged n])

/-- A serializable snapshot of a tree: the root path and the toplevel
forest under the pseudo root. -/
structure SavedTree where
  rootPath : String
  toplevel : FileForest

/-- A cache file: the root path line and one record per node, each an
attribute tuple with the node's nesting depth (tree position). -/
structure CacheFile where
  rootPath : String
  records : List (Nat × Attrs)

mutual
/-- Preorder flattening of a node at a nesting depth: its own record first,
then the records of its children at the next depth, in child order. -/
def flattenN : Nat → FileInfo → List (Nat × Attrs)
  | d, .mk a cs => (d, a) :: flattenF (d + 1) cs
/-- Preorder flattening of a forest at a nesting depth. -/
def flattenF : Nat → FileForest → List (Nat × Attrs)
  | _, .nil => []
  | d, .cons x xs => flattenN d x ++ flattenF d xs
end

/-- Modelled from the spec: DirTree::writeCache is not under src/.  Writes
the root path and, for every node in preorder, its name, kind, size,
modified time, device id and link count, the nesting depth recording the
tree position, children in order. -/
def writeCache (t : SavedTree) : CacheFile :=
  ⟨t.rootPath, flattenF 0 t.toplevel⟩

/-- Fuel-bounded parser: reads the maximal forest of records at the given
depth and returns it with the unconsumed rest of the records. -/
def parseF : Nat → Nat → List (Nat × Attrs) → FileForest × List (Nat × Attrs)
  | 0, _, l => (FileForest.nil, l)
  | _ + 1, _, [] => (FileForest.nil, [])
  | fuel + 1, d, (d₂, a) :: rest =>
      if d₂ = d then
        match parseF fuel (d + 1) rest with
        | (cc, rest₁) =>
            match parseF fuel d rest₁ with
            | (sibs, rest₂) => (FileForest.cons (FileInfo.mk a cc) sibs, rest₂)
      else (FileForest.nil, (d₂, a) :: rest)

/-- Modelled from the spec: DirTree::readCache parsing.  Rebuilds the tree
from the records; a file whose records do not form one well-nested forest
starting at depth 0 is rejected with CacheFormatError. -/
def parseCache (f : CacheFile) : Except DirTreeError SavedTree :=
  let r := parseF (2 * f.records.length + 1) 0 f.records
  match r.2 with
  | [] => Except.ok ⟨f.rootPath, r.1⟩
  | _ :: _ => Except.error DirTreeError.cacheFormat

/-- Modelled from the spec: DirTree::readCache is not under src/.  On
success the current root is replaced wholesale; on failure the error is
surfaced synchronously to the caller and the previous tree state is left
entirely unchanged. -/
def readCacheOp (s : DirTreeSt) (f : CacheFile) : DirTreeSt × Option DirTreeError :=
  match parseCache f with
  | Except.ok t =>
      ({ s with
           root := some (FileInfo.mk ⟨t.rootPath, 0, 0, 0, 0, FKind.pseudoRoot⟩ t.toplevel) },
       none)
  | Except.error e => (s, some e)

/-- Read states of a directory node. -/
inductive RState where
  | pending
  | reading
  | finished
  | aborted
  | readError
deriving DecidableEq

mutual
/-- A node of the identity tree used by the refresh model: a node identity
(standing for the object's address), its attributes, its read state and its
children. -/
inductive INode where
  | mk (nid : Nat) (a : Attrs) (rs : RState) (children : IForest)
/-- An ordered collection of INode children. -/
inductive IForest where
  | nil
  | cons (hd : INode) (tl : IForest)
end

mutual
/-- Whether a node with the given identity occurs in the tree. -/
def hasId : Nat → INode → Bool
  | t, .mk i _ _ cs => decide (i = t) || hasIdF t cs
/-- Whether a node with the given identity occurs in the forest. -/
def hasIdF : Nat → IForest → Bool
  | _, .nil => false
  | t, .cons x xs => hasId t x || hasIdF t xs
end

mutual
/-- Modelled from the header documentation of DirTree::refresh (DirTree.h
lines 80-91): the old subtree is deleted and rebuilt from scratch, so all
pointers to elements within the subtree become invalid.  The node carrying
the target identity is replaced by a freshly created node: new identity,
read state reset to pending, children discarded pending the re-read. -/
def refreshN : INode → Nat → Nat → INode
  | .mk i a rs cs, target, fresh =>
      if i = target then INode.mk fresh a RState.pending IForest.nil
      else INode.mk i a rs (refreshF cs target fresh)
/-- The refresh replacement applied across a forest. -/
def refreshF : IForest → Nat → Nat → IForest
  | .nil, _, _ => .nil
  | .cons x xs, target, fresh =>
      .cons (refreshN x target fresh) (refreshF xs target fresh)
end

/-- Modelled from the header documentation of DirTree::refresh: the tree
after the refresh, together with the deletion notice emitted for the old
subtree. -/
def refreshAt (t : INode) (target fresh : Nat) : INode × List Event :=
  (refreshN t target fresh,
   if hasId target t then [Event.deletingChild target] else [])

/-- Modelled from the spec: the emission sites of finalizeLocal are not
under src/.  Per the documentation of the finalizeLocal signal (DirTree.h
line 330), dir may be 0 when the tree's root could not be read: the scan
driver lists the root with the external primitive, and on failure sends
finalizeLocal with no directory. -/
def runScan (fs : String → Option (List Nat)) (path : String) : List Event :=
  match fs path with
  | none => [Event.startingReading, Event.finalizeLocal none, Event.finished]
  | some entries =>
      [Event.startingReading] ++ entries.map Event.childAdded ++
        [Event.finalizeLocal (some 0), Event.finished]

/-- Number of aborted events in a trace. -/
def countAborted : List Event → Nat
  | [] => 0
  | Event.aborted :: es => countAborted es + 1
  | _ :: es => countAborted es

/-- Whether an event is a childAdded emission. -/
def isChildAdded : Event → Bool
  | Event.childAdded _ => true
  | _ => false

/-- The first child of the forest matching the segment, if any. -/
def firstMatch (f : Bool) (s : String) : FileForest → Option FileInfo
  | .nil => none
  | .cons c ct => if segMatches f s c then some c else firstMatch f s ct

/-- Whether no child of the forest matches the segment. -/
def noMatch (f : Bool) (s : String) : FileForest → Bool
  | .nil => true
  | .cons c ct => !segMatches f s c && noMatch f s ct

mutual
/-- Number of nodes of a FileInfo subtree, the node itself included. -/
def sizeN : FileInfo → Nat
  | .mk _ cs => sizeF cs + 1
/-- Number of nodes of a forest. -/
def sizeF : FileForest → Nat
  | .nil => 0
  | .cons x xs => sizeN x + sizeF xs
end

/-- The head record of the list, if any, has a nesting depth below d. -/
def hdLt (d : Nat) : List (Nat × Attrs) → Prop
  | [] => True
  | (d₂, _) :: _ => d₂ < d

/-- A sample plain-file attribute record. -/
def attrsA : Attrs := ⟨"a", 100, 7, 3, 1, FKind.plainFile⟩

/-- A second sample plain-file attribute record. -/
def attrsB : Attrs := ⟨"b", 50, 8, 3, 1, FKind.plainFile⟩

/-- A sample directory attribute record. -/
def attrsD : Attrs := ⟨"d", 0, 9, 3, 1, FKind.directory⟩

/-- A sample tree state with a scan in progress: one pending job and one
executing job with two entries still to report. -/
def st1 : DirTreeSt :=
  ⟨none, none, ⟨[⟨1, [2]⟩], some ⟨0, [5, 6]⟩, QState.busy⟩, false, true⟩

/-- A sample directory node with one plain-file child and a valid cache. -/
def t3 : DirNode :=
  DirNode.dir attrsD (some ⟨100, 1, 0⟩)
    (DirForest.cons (DirNode.file attrsA) DirForest.nil)

/-- A sample mutation sequence: attach a second file, then detach the
first one, with no recomputation in between. -/
def ops3 : List MOp := [MOp.attach [] (DirNode.file attrsB), MOp.detach [] 0]

/-- A corrupt cache file: its single record is at nesting depth 5, so the
records do not form a well-nested forest starting at depth 0. -/
def f6 : CacheFile := ⟨"/", [(5, attrsA)]⟩

/-- A sample child collection for the locate walk. -/
def tree7cs : FileForest :=
  FileForest.cons (FileInfo.mk attrsA FileForest.nil) FileForest.nil

/-- A sample identity tree: a directory (identity 0) with one child of
identity 2. -/
def ex5 : INode :=
  INode.mk 0 attrsD RState.finished
    (IForest.cons (INode.mk 2 attrsA RState.finished IForest.nil) IForest.nil)

/-- A filesystem primitive on which every directory listing fails. -/
def fsNone : String → Option (List Nat) := fun _ => none

/-- The size component of a sum of totals. -/
theorem Totals.add_size (x y : Totals) : (Totals.add x y).size = x.size + y.size := rfl

mutual
/-- On a cache-consistent node the lazy totals agree with the eager ones. -/
theorem lazyN_eq : ∀ t : DirNode, cacheOK t = true → lazyN t = trueN t
  | .file _, _ => rfl
  | .dir a c cs, h => by
      cases c with
      | none =>
          have hp : cacheOKF cs = true := by simpa [cacheOK] using h
          simp only [lazyN, trueN]
          rw [lazyF_eq cs hp]
      | some tot =>
          have hp := h
          simp only [cacheOK, Bool.and_eq_true, decide_eq_true_eq] at hp
          simp only [lazyN, trueN]
          rw [hp.1]
/-- On a cache-consistent forest the lazy totals agree with the eager ones. -/
theorem lazyF_eq : ∀ cs : DirForest, cacheOKF cs = true → lazyF cs = trueF cs
  | .nil, _ => rfl
  | .cons x xs, h => by
      have hp := h
      simp only [cacheOKF, Bool.and_eq_true] at hp
      simp only [lazyF, trueF]
      rw [lazyN_eq x hp.1, lazyF_eq xs hp.2]
end

mutual
/-- The size component of the eager totals is the plain-file size sum. -/
theorem trueN_size : ∀ t : DirNode, (trueN t).size = plainSizeN t
  | .file a => by
      by_cases hk : a.kind = FKind.plainFile <;>
        simp [trueN, plainSizeN, leafTotals, hk, Totals.zero]
  | .dir a c cs => by
      have h := trueF_size cs
      by_cases hk : a.kind = FKind.directory <;>
        simp [trueN, plainSizeN, Totals.add, dirSelf, hk, Totals.zero, h]
/-- The size component of a forest's eager totals is the plain-file size sum. -/
theorem trueF_size : ∀ cs : DirForest, (trueF cs).size = plainSizeF cs
  | .nil => rfl
  | .cons x xs => by
      simp [trueF, plainSizeF, Totals.add, trueN_size x, trueF_size xs]
end

/-- Appending a cache-consistent child keeps a forest cache-consistent. -/
theorem appendF_ok : ∀ (cs : DirForest) (c : DirNode), cacheOKF cs = true →
    cacheOK c = true → cacheOKF (appendF cs c) = true
  | .nil, c, _, h2 => by simp [appendF, cacheOKF, h2]
  | .cons x xs, c, h1, h2 => by
      simp only [cacheOKF, Bool.and_eq_true] at h1
      simp [appendF, cacheOKF, h1.1, appendF_ok xs c h1.2 h2]

/-- Removing an element keeps a forest cache-consistent. -/
theorem removeIdx_ok : ∀ (cs : DirForest) (i : Nat) (cs₂ : DirForest),
    cacheOKF cs = true → removeIdx cs i = some cs₂ → cacheOKF cs₂ = true
  | .nil, i, _, _, h => by simp [removeIdx] at h
  | .cons x xs, 0, cs₂, h1, h => by
      simp only [cacheOKF, Bool.and_eq_true] at h1
      simp only [removeIdx, Option.some.injEq] at h
      rw [← h]
      exact h1.2
  | .cons x xs, Nat.succ i, cs₂, h1, h => by
      simp only [cacheOKF, Bool.and_eq_true] at h1
      simp only [removeIdx] at h
      cases hr : removeIdx xs i with
      | none => rw [hr] at h; simp at h
      | some ys =>
          rw [hr] at h
          simp only [Option.some.injEq] at h
          rw [← h]
          simp [cacheOKF, h1.1, removeIdx_ok xs i ys h1.2 hr]

mutual
/-- attachChild with a cache-consistent child preserves cache consistency:
the invalidated ancestors are dirty (hence trivially consistent) and
everything off the path is untouched. -/
theorem attachGo_ok : ∀ (t : DirNode) (p : List Nat) (c t₂ : DirNode),
    cacheOK t = true → cacheOK c = true → attachGo t p c = some t₂ →
    cacheOK t₂ = true
  | .file _, _, _, _, _, _, h => by simp [attachGo] at h
  | .dir a cc cs, [], c, t₂, h1, h2, h => by
      simp only [attachGo, Option.some.injEq] at h
      simp only [cacheOK, Bool.and_eq_true] at h1
      rw [← h]
      simp [cacheOK, appendF_ok cs c h1.2 h2]
  | .dir a cc cs, i :: p, c, t₂, h1, h2, h => by
      simp only [attachGo] at h
      simp only [cacheOK, Bool.and_eq_true] at h1
      cases hr : attachGoF cs i p c with
      | none => rw [hr] at h; simp at h
      | some cs₂ =>
          rw [hr] at h
          simp only [Option.some.injEq] at h
          rw [← h]
          simp [cacheOK, attachGoF_ok cs i p c cs₂ h1.2 h2 hr]
/-- attachChild navigation preserves cache consistency of a forest. -/
theorem attachGoF_ok : ∀ (cs : DirForest) (i : Nat) (p : List Nat) (c : DirNode)
    (cs₂ : DirForest), cacheOKF cs = true → cacheOK c = true →
    attachGoF cs i p c = some cs₂ → cacheOKF cs₂ = true
  | .nil, _, _, _, _, _, _, h => by simp [attachGoF] at h
  | .cons x xs, 0, p, c, cs₂, h1, h2, h => by
      simp only [attachGoF] at h
      simp only [cacheOKF, Bool.and_eq_true] at h1
      cases hr : attachGo x p c with
      | none => rw [hr] at h; simp at h
      | some x₂ =>
          rw [hr] at h
          simp only [Option.some.injEq] at h
          rw [← h]
          simp [cacheOKF, attachGo_ok x p c x₂ h1.1 h2 hr, h1.2]
  | .cons x xs, Nat.succ i, p, c, cs₂, h1, h2, h => by
      simp only [attachGoF] at h
      simp only [cacheOKF, Bool.and_eq_true] at h1
      cases hr : attachGoF xs i p c with
      | none => rw [hr] at h; simp at h
      | some ys =>
          rw [hr] at h
          simp only [Option.some.injEq] at h
          rw [← h]
          simp [cacheOKF, h1.1, attachGoF_ok xs i p c ys h1.2 h2 hr]
end

mutual
/-- detachChild preserves cache consistency. -/
theorem detachGo_ok : ∀ (t : DirNode) (p : List Nat) (i : Nat) (t₂ : DirNode),
    cacheOK t = true → detachGo t p i = some t₂ → cacheOK t₂ = true
  | .file _, _, _, _, _, h => by simp [detachGo] at h
  | .dir a cc cs, [], i, t₂, h1, h => by
      simp only [detachGo] at h
      simp only [cacheOK, Bool.and_eq_true] at h1
      cases hr : removeIdx cs i with
      | none => rw [hr] at h; simp at h
      | some cs₂ =>
          rw [hr] at h
          simp only [Option.some.injEq] at h
          rw [← h]
          simp [cacheOK, removeIdx_ok cs i cs₂ h1.2 hr]
  | .dir a cc cs, j :: p, i, t₂, h1, h => by
      simp only [detachGo] at h
      simp only [cacheOK, Bool.and_eq_true] at h1
      cases hr : detachGoF cs j p i with
      | none => rw [hr] at h; simp at h
      | some cs₂ =>
          rw [hr] at h
          simp only [Option.some.injEq] at h
          rw [← h]
          simp [cacheOK, detachGoF_ok cs j p i cs₂ h1.2 hr]
/-- detachChild navigation preserves cache consistency of a forest. -/
theorem detachGoF_ok : ∀ (cs : DirForest) (j : Nat) (p : List Nat) (i : Nat)
    (cs₂ : DirForest), cacheOKF cs = true → detachGoF cs j p i = some cs₂ →
    cacheOKF cs₂ = true
  | .nil, _, _, _, _, _, h => by simp [detachGoF] at h
  | .cons x xs, 0, p, i, cs₂, h1, h => by
      simp only [detachGoF] at h
      simp only [cacheOKF, Bool.and_eq_true] at h1
      cases hr : detachGo x p i with
      | none => rw [hr] at h; simp at h
      | some x₂ =>
          rw [hr] at h
          simp only [Option.some.injEq] at h
          rw [← h]
          simp [cacheOKF, detachGo_ok x p i x₂ h1.1 hr, h1.2]
  | .cons x xs, Nat.succ j, p, i, cs₂, h1, h => by
      simp only [detachGoF] at h
      simp only [cacheOKF, Bool.and_eq_true] at h1
      cases hr : detachGoF xs j p i with
      | none => rw [hr] at h; simp at h
      | some ys =>
          rw [hr] at h
          simp only [Option.some.injEq] at h
          rw [← h]
          simp [cacheOKF, h1.1, detachGoF_ok xs j p i ys h1.2 hr]
end

/-- Every sequence of attach/detach operations whose attached children are
cache-consistent preserves cache consistency. -/
theorem applyOps_ok : ∀ (ops : List MOp) (t : DirNode), cacheOK t = true →
    opsOK ops = true → cacheOK (applyOps t ops) = true
  | [], t, h1, _ => h1
  | MOp.attach p c :: os, t, h1, h2 => by
      simp only [opsOK, Bool.and_eq_true] at h2
      have hstep : cacheOK (applyOp t (MOp.attach p c)) = true := by
        simp only [applyOp]
        cases hr : attachGo t p c with
        | none => simpa using h1
        | some t₂ => simpa using attachGo_ok t p c t₂ h1 h2.1 hr
      simpa [applyOps] using applyOps_ok os _ hstep h2.2
  | MOp.detach p i :: os, t, h1, h2 => by
      simp only [opsOK] at h2
      have hstep : cacheOK (applyOp t (MOp.detach p i)) = true := by
        simp only [applyOp]
        cases hr : detachGo t p i with
        | none => simpa using h1
        | some t₂ => simpa using detachGo_ok t p i t₂ h1 hr
      simpa [applyOps] using applyOps_ok os _ hstep h2

/-- On a cache-consistent node, the lazily read aggregate totals have as
size exactly the plain-file size sum of the child collection. -/
theorem aggregateTotals_size (t : DirNode) (h : cacheOK t = true) :
    (aggregateTotals t).size = plainSizeF (childrenOf t) := by
  cases t with
  | file a => rfl
  | dir a c cs =>
      cases c with
      | some tot =>
          simp only [cacheOK, Bool.and_eq_true, decide_eq_true_eq] at h
          simp [aggregateTotals, childrenOf, h.1, trueF_size]
      | none =>
          have hf : cacheOKF cs = true := by simpa [cacheOK] using h
          simp [aggregateTotals, childrenOf, lazyF_eq cs hf, trueF_size]

/-- C3: for every directory node D with consistent caches and every finite
sequence of attachChild/detachChild operations on D's subtree (attached
children themselves cache-consistent), reading aggregateTotals(D).size
afterwards — with no explicit recomputation call in between — returns the
sum of the sizes of D's current descendant plain-file nodes: lazy
invalidation yields the same result as eager recomputation. -/
theorem c3_lazy_totals (t : DirNode) (ops : List MOp)
    (h1 : cacheOK t = true) (h2 : opsOK ops = true) :
    (aggregateTotals (applyOps t ops)).size =
      plainSizeF (childrenOf (applyOps t ops)) :=
  aggregateTotals_size _ (applyOps_ok ops t h1 h2)

/-- Witness for C3: a concrete cached directory, one attach and one detach,
then a read with no recomputation in between. -/
theorem c3_lazy_totals_witness :
    (cacheOK t3 = true ∧ opsOK ops3 = true) ∧
    (aggregateTotals (applyOps t3 ops3)).size =
      plainSizeF (childrenOf (applyOps t3 ops3)) :=
  ⟨⟨by decide, by decide⟩, c3_lazy_totals t3 ops3 (by decide) (by decide)⟩

/-- countAborted distributes over list append. -/
theorem countAborted_append (xs ys : List Event) :
    countAborted (xs ++ ys) = countAborted xs + countAborted ys := by
  induction xs with
  | nil => simp [countAborted]
  | cons x xs ih => cases x <;> simp [countAborted, ih, Nat.add_right_comm]

/-- A trace of childAdded events contains no aborted event. -/
theorem countAborted_map_childAdded (l : List Nat) :
    countAborted (l.map Event.childAdded) = 0 := by
  induction l with
  | nil => rfl
  | cons x xs ih => simpa [countAborted] using ih

/-- In a trace of childAdded events closed by one final aborted event, no
childAdded emission occurs at any position after the aborted one. -/
theorem no_childAdded_after (L : List Nat) (i j id : Nat) (hij : i < j)
    (hi : (L.map Event.childAdded ++ [Event.aborted])[i]? = some Event.aborted) :
    (L.map Event.childAdded ++ [Event.aborted])[j]? ≠ some (Event.childAdded id) := by
  intro hj
  by_cases hlt : i < (L.map Event.childAdded).length
  · rw [List.getElem?_append_left hlt] at hi
    rcases List.getElem?_eq_some.mp hi with ⟨h₁, h₂⟩
    have hmem : Event.aborted ∈ L.map Event.childAdded := h₂ ▸ List.getElem_mem h₁
    rcases List.mem_map.mp hmem with ⟨x, _, hx⟩
    exact Event.noConfusion hx
  · rcases List.getElem?_eq_some.mp hj with ⟨h₁, _⟩
    have hlen : (L.map Event.childAdded ++ [Event.aborted]).length =
        (L.map Event.childAdded).length + 1 := by simp
    omega

/-- C1: for every in-progress scan, abortReading results in exactly one
aborted event, the job queue returns to the idle state with the pending
sequence discarded and the busy flag cleared, no childAdded event occurs
after the aborted one in the emitted trace, and the idle queue performs no
further step. -/
theorem c1_abort_reading (s : DirTreeSt) (_h : s.jobQueue.state = QState.busy) :
    countAborted (abortReading s).2 = 1 ∧
    (abortReading s).1.jobQueue = ⟨[], none, QState.idle⟩ ∧
    (abortReading s).1.isBusy = false ∧
    (∀ (i j id : Nat), i < j → (abortReading s).2[i]? = some Event.aborted →
      (abortReading s).2[j]? ≠ some (Event.childAdded id)) ∧
    queueStep (abortReading s).1.jobQueue = ((abortReading s).1.jobQueue, []) := by
  cases hc : s.jobQueue.current with
  | none =>
      refine ⟨?_, rfl, rfl, ?_, rfl⟩
      · simp [abortReading, queueAbort, hc, countAborted]
      · intro i j id hij hi
        simp only [abortReading, queueAbort, hc] at hi ⊢
        exact no_childAdded_after [] i j id hij hi
  | some jb =>
      refine ⟨?_, rfl, rfl, ?_, rfl⟩
      · simp [abortReading, queueAbort, hc, countAborted_append,
          countAborted_map_childAdded, countAborted]
      · intro i j id hij hi
        simp only [abortReading, queueAbort, hc] at hi ⊢
        exact no_childAdded_after jb.remaining i j id hij hi

/-- Witness for C1 at a concrete busy state with one executing and one
pending job. -/
theorem c1_abort_reading_witness :
    st1.jobQueue.state = QState.busy ∧
    countAborted (abortReading st1).2 = 1 ∧
    (abortReading st1).1.jobQueue = ⟨[], none, QState.idle⟩ ∧
    (abortReading st1).1.isBusy = false ∧
    (∀ (i j id : Nat), i < j → (abortReading st1).2[i]? = some Event.aborted →
      (abortReading st1).2[j]? ≠ some (Event.childAdded id)) ∧
    queueStep (abortReading st1).1.jobQueue = ((abortReading st1).1.jobQueue, []) :=
  ⟨rfl, c1_abort_reading st1 rfl⟩

/-- C2: starting a second scan while isBusy is true fails with
AlreadyBusyError, emits no event, and leaves the whole tree state — job
queue contents, tree nodes, selection and busy flag — unchanged. -/
theorem c2_start_while_busy (s : DirTreeSt) (path : String) (h : s.isBusy = true) :
    startReading s path = (some DirTreeError.alreadyBusy, s, []) := by
  simp [startReading, h]

/-- Witness for C2 at a concrete busy state. -/
theorem c2_start_while_busy_witness :
    st1.isBusy = true ∧
    startReading st1 "/home" = (some DirTreeError.alreadyBusy, st1, []) :=
  ⟨rfl, c2_start_while_busy st1 "/home" rfl⟩

/-- C8: selectItem sets the current selection to the given node (or none)
and always emits exactly one selectionChanged event, also when the new
selection coincides with the previous one (no deduplication). -/
theorem c8_select_item (s : DirTreeSt) (n : Option Nat) :
    (selectItem s n).1.selection = n ∧
    (selectItem s n).2 = [Event.selectionChanged n] ∧
    (selectItem s s.selection).2 = [Event.selectionChanged s.selection] :=
  ⟨rfl, rfl, rfl⟩

/-- C9: DirTree::locate on a tree whose root is null returns 0 for every
url and every value of the findDotEntries flag, never dereferencing the
root (DirTree.h lines 151-152). -/
theorem c9_locate_null_root (s : DirTreeSt) (url : String) (f : Bool)
    (h : s.root = none) : DirTree.locate s url f = none := by
  simp [DirTree.locate, h]

/-- Witness for C9 at a concrete rootless state. -/
theorem c9_locate_null_root_witness :
    st1.root = none ∧ DirTree.locate st1 "/usr/bin" true = none :=
  ⟨rfl, c9_locate_null_root st1 "/usr/bin" true rfl⟩

/-- C10: when the tree's root cannot be read, the scan delivers the
per-directory finalizeLocal event with no directory argument. -/
theorem c10_finalize_local_null (fs : String → Option (List Nat)) (path : String)
    (h : fs path = none) : Event.finalizeLocal none ∈ runScan fs path := by
  simp [runScan, h]

/-- Witness for C10 with a filesystem primitive on which the root listing
fails. -/
theorem c10_finalize_local_null_witness :
    fsNone "/root" = none ∧ Event.finalizeLocal none ∈ runScan fsNone "/root" :=
  ⟨rfl, c10_finalize_local_null fsNone "/root" rfl⟩

mutual
/-- After a refresh no occurrence of the target identity remains in the
tree: the subtree node itself was deleted and rebuilt with a fresh
identity. -/
theorem refreshN_removes : ∀ (t : INode) (target fresh : Nat), fresh ≠ target →
    hasId target (refreshN t target fresh) = false
  | .mk i a rs cs, target, fresh, h => by
      by_cases hi : i = target
      · simp [refreshN, hi, hasId, hasIdF, h]
      · simp [refreshN, hi, hasId, refreshF_removes cs target fresh h]
/-- Forest version of refreshN_removes. -/
theorem refreshF_removes : ∀ (cs : IForest) (target fresh : Nat), fresh ≠ target →
    hasIdF target (refreshF cs target fresh) = false
  | .nil, _, _, _ => rfl
  | .cons x xs, target, fresh, h => by
      simp [refreshF, hasIdF, refreshN_removes x target fresh h,
        refreshF_removes xs target fresh h]
end

/-- C5 counterexample: in the concrete tree ex5 a subtree node with
identity 2 exists, yet after refresh targets it no node with identity 2
remains — the identity of the subtree DirInfo is not preserved and an
external reference to it is invalidated, contrary to the claim. -/
theorem c5_counterexample :
    hasId 2 ex5 = true ∧ hasId 2 (refreshAt ex5 2 10).1 = false :=
  ⟨by decide, by decide⟩

/-- C5 amended: refresh(subtree) deletes the old subtree including the
subtree node itself and rebuilds it from scratch, so pointers to elements
within the subtree — the subtree DirInfo included — become invalid, and a
deletion notice for the subtree is emitted (DirTree.h lines 80-91). -/
theorem c5_refresh_invalidates (t : INode) (target fresh : Nat)
    (h1 : fresh ≠ target) (h2 : hasId target t = true) :
    hasId target (refreshAt t target fresh).1 = false ∧
    (refreshAt t target fresh).2 = [Event.deletingChild target] := by
  refine ⟨refreshN_removes t target fresh h1, ?_⟩
  simp [refreshAt, h2]

/-- Witness for the amended C5 at the concrete tree ex5. -/
theorem c5_refresh_invalidates_witness :
    ((10 : Nat) ≠ 2 ∧ hasId 2 ex5 = true) ∧
    (hasId 2 (refreshAt ex5 2 10).1 = false ∧
      (refreshAt ex5 2 10).2 = [Event.deletingChild 2]) :=
  ⟨⟨by decide, by decide⟩, c5_refresh_invalidates ex5 2 10 (by decide) (by decide)⟩

/-- Prepending a flattened forest at depth d keeps the head depth below
d + 1. -/
theorem hdLt_flatten_append (d : Nat) (cs : FileForest) (rest : List (Nat × Attrs))
    (h : hdLt d rest) : hdLt (d + 1) (flattenF d cs ++ rest) := by
  cases cs with
  | nil =>
      cases rest with
      | nil => simp [flattenF, hdLt]
      | cons r t =>
          cases r with
          | mk d₂ a =>
              simp only [hdLt] at h
              simp only [flattenF, List.nil_append, hdLt]
              omega
  | cons x xs =>
      cases x with
      | mk a cc =>
          simp [flattenF, flattenN, hdLt]

mutual
/-- The flattening of a node has one record per node of the subtree. -/
theorem flattenN_length : ∀ (d : Nat) (t : FileInfo), (flattenN d t).length = sizeN t
  | d, .mk a cs => by simp [flattenN, sizeN, flattenF_length (d + 1) cs]
/-- The flattening of a forest has one record per node. -/
theorem flattenF_length : ∀ (d : Nat) (cs : FileForest), (flattenF d cs).length = sizeF cs
  | _, .nil => rfl
  | d, .cons x xs => by
      simp [flattenF, sizeF, flattenN_length d x, flattenF_length d xs]
end

/-- The parser inverts the flattening: with enough fuel, parsing the
flattened forest followed by records of smaller depth returns exactly the
forest and leaves exactly those records. -/
theorem parseF_flattenF : ∀ (fuel : Nat), ∀ (d : Nat) (cs : FileForest)
    (rest : List (Nat × Attrs)), 2 * sizeF cs + 1 ≤ fuel → hdLt d rest →
    parseF fuel d (flattenF d cs ++ rest) = (cs, rest) := by
  intro fuel
  induction fuel with
  | zero => intro d cs rest hf _; omega
  | succ f ih =>
      intro d cs rest hf hr
      cases cs with
      | nil =>
          cases rest with
          | nil => simp [flattenF, parseF]
          | cons r t =>
              cases r with
              | mk d₂ a =>
                  simp only [hdLt] at hr
                  have hne : d₂ ≠ d := Nat.ne_of_lt hr
                  simp [flattenF, parseF, hne]
      | cons x xs =>
          cases x with
          | mk a cc =>
              have hb : 2 * sizeF cc + 1 ≤ f ∧ 2 * sizeF xs + 1 ≤ f := by
                simp only [sizeF, sizeN] at hf
                omega
              have h1 := ih (d + 1) cc (flattenF d xs ++ rest) hb.1
                (hdLt_flatten_append d xs rest hr)
              have h2 := ih d xs rest hb.2 hr
              calc parseF (f + 1) d (flattenF d (.cons (.mk a cc) xs) ++ rest)
                  = parseF (f + 1) d
                      ((d, a) :: (flattenF (d + 1) cc ++ (flattenF d xs ++ rest))) := by
                    simp [flattenF, flattenN, List.append_assoc]
                _ = (.cons (.mk a cc) xs, rest) := by
                    simp [parseF, h1, h2]

/-- C4: writing the complete tree to a cache file and reading that file
back reconstructs the tree exactly: the same root path and, for every
node, the same name, kind, size, modified time, device id, link count and
tree position, with the order of each node's children preserved. -/
theorem c4_cache_round_trip (t : SavedTree) :
    parseCache (writeCache t) = Except.ok t := by
  cases t with
  | mk rp cs =>
      have hlen : (flattenF 0 cs).length = sizeF cs := flattenF_length 0 cs
      have h := parseF_flattenF (2 * (flattenF 0 cs).length + 1) 0 cs []
        (by rw [hlen]) (by simp [hdLt])
      rw [List.append_nil] at h
      simp [writeCache, parseCache, h]

/-- C6: a failed readCache surfaces the error synchronously to the caller
and leaves the previous tree state entirely unchanged: no partial
replacement of the root or of any node. -/
theorem c6_read_cache_fail (s : DirTreeSt) (f : CacheFile) (e : DirTreeError)
    (h : parseCache f = Except.error e) : readCacheOp s f = (s, some e) := by
  simp [readCacheOp, h]

/-- Witness for C6 at a concrete corrupt cache file. -/
theorem c6_read_cache_fail_witness :
    parseCache f6 = Except.error DirTreeError.cacheFormat ∧
    readCacheOp st1 f6 = (st1, some DirTreeError.cacheFormat) :=
  ⟨rfl, c6_read_cache_fail st1 f6 DirTreeError.cacheFormat rfl⟩

/-- When no child of the collection matches the segment, the walk fails. -/
theorem locateFirst_none : ∀ (cs : FileForest) (s : String) (ss : List String)
    (f : Bool), noMatch f s cs = true → locateFirst cs s ss f = none
  | .nil, _, _, _, _ => rfl
  | .cons c ct, s, ss, f, h => by
      simp only [noMatch, Bool.and_eq_true, Bool.not_eq_true'] at h
      simp [locateFirst, h.1, locateFirst_none ct s ss f h.2]

/-- The walk continues at the first child matching the segment. -/
theorem locateFirst_step : ∀ (cs : FileForest) (s : String) (ss : List String)
    (f : Bool) (c : FileInfo), firstMatch f s cs = some c →
    locateFirst cs s ss f = locateSegs c ss f
  | .nil, _, _, _, _, h => by simp [firstMatch] at h
  | .cons x ct, s, ss, f, c, h => by
      by_cases hm : segMatches f s x = true
      · simp only [firstMatch, hm, if_true, Option.some.injEq] at h
        subst h
        simp [locateFirst, hm]
      · have hm₂ : segMatches f s x = false := by simpa using hm
        simp only [firstMatch, hm₂] at h
        simp only [Bool.false_eq_true, if_false] at h
        simp [locateFirst, hm₂, locateFirst_step ct s ss f c h]

mutual
/-- With findDotEntries unset, a walk started at a non-aggregate node never
returns an aggregate pseudo-child. -/
theorem locateSegs_no_aggregate : ∀ (t : FileInfo) (segs : List String)
    (n : FileInfo), FileInfo.kind t ≠ FKind.aggregate →
    locateSegs t segs false = some n → FileInfo.kind n ≠ FKind.aggregate
  | t, [], n, ht, h => by
      simp only [locateSegs, Option.some.injEq] at h
      rw [← h]
      exact ht
  | .mk a cs, s :: ss, n, _, h => by
      simp only [locateSegs] at h
      exact locateFirst_no_aggregate cs s ss n h
/-- With findDotEntries unset, the child walk never steps into an
aggregate pseudo-child: an aggregate never matches a segment. -/
theorem locateFirst_no_aggregate : ∀ (cs : FileForest) (s : String)
    (ss : List String) (n : FileInfo), locateFirst cs s ss false = some n →
    FileInfo.kind n ≠ FKind.aggregate
  | .nil, _, _, _, h => by simp [locateFirst] at h
  | .cons c ct, s, ss, n, h => by
      by_cases hm : segMatches false s c = true
      · have hc : FileInfo.kind c ≠ FKind.aggregate := by
          intro hk
          simp [segMatches, hk] at hm
        simp only [locateFirst, hm, if_true] at h
        exact locateSegs_no_aggregate c ss n hc h
      · have hm₂ : segMatches false s c = false := by simpa using hm
        simp only [locateFirst, hm₂] at h
        simp only [Bool.false_eq_true, if_false] at h
        exact locateFirst_no_aggregate ct s ss n h
end

/-- C7: the locate walk resolves a path segment list child-by-child by
name match starting at the given node: the empty path resolves to the node
itself; a head segment matching no child makes the whole walk return none;
the walk continues at the first matching child; and with findDotEntries
unset the walk never yields an aggregate pseudo-child, the dot entry being
matchable by its conventional name only when the flag is set. -/
theorem c7_locate_walk (a : Attrs) (cs : FileForest) (s : String)
    (ss : List String) (f : Bool) :
    (locateSegs (FileInfo.mk a cs) [] f = some (FileInfo.mk a cs)) ∧
    (noMatch f s cs = true → locateSegs (FileInfo.mk a cs) (s :: ss) f = none) ∧
    (∀ c, firstMatch f s cs = some c →
      locateSegs (FileInfo.mk a cs) (s :: ss) f = locateSegs c ss f) ∧
    (∀ n, a.kind ≠ FKind.aggregate →
      locateSegs (FileInfo.mk a cs) (s :: ss) false = some n →
      FileInfo.kind n ≠ FKind.aggregate) := by
  refine ⟨rfl, ?_, ?_, ?_⟩
  · intro h
    simpa [locateSegs] using locateFirst_none cs s ss f h
  · intro c h
    simpa [locateSegs] using locateFirst_step cs s ss f c h
  · intro n _ h
    simp only [locateSegs] at h
    exact locateFirst_no_aggregate cs s ss n h

/-- Witness for C7 on a concrete one-child tree: an unmatched segment
fails the whole walk, and a matching segment steps into the child. -/
theorem c7_locate_walk_witness :
    (noMatch false "zzz" tree7cs = true ∧
      locateSegs (FileInfo.mk attrsD tree7cs) ["zzz"] false = none) ∧
    (firstMatch false "a" tree7cs = some (FileInfo.mk attrsA FileForest.nil) ∧
      locateSegs (FileInfo.mk attrsD tree7cs) ["a"] false =
        locateSegs (FileInfo.mk attrsA FileForest.nil) [] false) :=
  ⟨⟨rfl, (c7_locate_walk attrsD tree7cs "zzz" [] false).2.1 rfl⟩,
   ⟨rfl, (c7_locate_walk attrsD tree7cs "a" [] false).2.2.1
      (FileInfo.mk attrsA FileForest.nil) rfl⟩⟩
